import Mathlib

set_option linter.unusedSectionVars false

/-!
# CloudSupply order/cart/stock core — shallow embedding

A shallow embedding of the consistency core of the CloudSupply storefront
(`core/db/crud.py` over the schema of `bot/core/db/models.py`): the Cart
Ledger, the Order Engine and the Catalog Store stock operations.

Modelling conventions:

* The database is a record of lists, one per table, kept in insertion
  order.  Primary keys autoincrement (the `next…Id` counters), so list
  order coincides with ascending-id order, which is how the source reads
  rows back (`ORDER BY id`, and SQLite's default rowid order).
* Monetary values are Python `float`s in the source; they are modelled
  over an arbitrary commutative ring `M` with decidable equality, so every
  theorem below holds in particular for `M = ℚ` (the exact-value reading
  of the float arithmetic).  Concrete witnesses instantiate `M = ℤ`.
* Quantities and stock counts are Python `int`s, modelled as `ℤ`.
* `SELECT … LIMIT 1` / `scalar_one_or_none` is `List.find?`;
  `UPDATE … WHERE c` maps the update over every row satisfying `c`;
  `DELETE … WHERE c` filters the rows satisfying `c` out; mutating a row
  object fetched by a query edits that row in place.
* The most recent `processing` order (`ORDER BY created_at DESC` +
  `first()`) is the last matching row in insertion order, since
  `created_at` increases with insertion.
-/

/-- A purchasable variant (`Product` row: flavour of a model with price,
stock and availability). -/
structure Product (M : Type) where
  id : Nat
  model_id : Nat
  flavor_name : String
  price : M
  stock_quantity : Int
  is_available : Bool
deriving DecidableEq, Repr

/-- A cart row (`Cart`): a pending (user, product, quantity) selection. -/
structure CartItem where
  id : Nat
  user_id : Nat
  product_id : Nat
  quantity : Int
deriving DecidableEq, Repr

/-- An order row (`Order`). -/
structure Order (M : Type) where
  id : Nat
  user_id : Nat
  total_price : M
  status : String
  delivery_method : String
  delivery_fee : M
  contact_info : Option String
deriving DecidableEq, Repr

/-- An order line item (`OrderItem`): quantity of a product at the price
frozen at order time. -/
structure OrderItem (M : Type) where
  id : Nat
  order_id : Nat
  product_id : Nat
  quantity : Int
  price_at_order : M
deriving DecidableEq, Repr

/-- The database state: one list per table (insertion = ascending-id
order) plus the autoincrement counters. -/
structure DB (M : Type) where
  products : List (Product M)
  cart : List CartItem
  orders : List (Order M)
  orderItems : List (OrderItem M)
  nextCartId : Nat
  nextOrderId : Nat
  nextItemId : Nat
deriving DecidableEq, Repr

variable {M : Type} [CommRing M] [DecidableEq M]

/-! ## Catalog Store primitives -/

/-- First product with the given id (`get_product_by_id`). -/
def findProduct (ps : List (Product M)) (pid : Nat) : Option (Product M) :=
  ps.find? (fun p => p.id == pid)

/-- `update_product(product_id, stock_quantity=v)`: set the stock of the
rows with the given id. -/
def setStock (ps : List (Product M)) (pid : Nat) (v : Int) : List (Product M) :=
  ps.map (fun p => if p.id == pid then { p with stock_quantity := v } else p)

/-- `update_stock(product_id, quantity_change)` on the products table:
read the current stock, add the delta, clamp at zero, write back; no-op
when the product does not exist. -/
def updStock (ps : List (Product M)) (pid : Nat) (d : Int) : List (Product M) :=
  match findProduct ps pid with
  | none => ps
  | some p => setStock ps pid (max 0 (p.stock_quantity + d))

/-- `get_product_by_id` on the full state. -/
def get_product_by_id (s : DB M) (pid : Nat) : Option (Product M) :=
  findProduct s.products pid

/-- `update_stock` on the full state. -/
def update_stock (s : DB M) (pid : Nat) (d : Int) : DB M :=
  { s with products := updStock s.products pid d }

/-- `update_product(product_id, price=v)`: the price-changing instance of
the generic `update_product(**kwargs)` catalog mutation. -/
def update_product_price (s : DB M) (pid : Nat) (v : M) : DB M :=
  { s with products := s.products.map (fun p => if p.id == pid then { p with price := v } else p) }

/-- `create_product`: append a new product row (fresh ids are chosen by the
store; the row is passed explicitly here). -/
def create_product (s : DB M) (p : Product M) : DB M :=
  { s with products := s.products ++ [p] }

/-- `delete_product`: delete the rows with the given id. -/
def delete_product (s : DB M) (pid : Nat) : DB M :=
  { s with products := s.products.filter (fun p => !(p.id == pid)) }

/-! ## Cart Ledger -/

/-- Does a cart row belong to the given user and product? -/
def isUP (uid pid : Nat) (r : CartItem) : Bool :=
  r.user_id == uid && r.product_id == pid

/-- Total quantity the list holds for (user, product). -/
def cartQty (uid pid : Nat) (l : List CartItem) : Int :=
  ((l.filter (isUP uid pid)).map (fun r => r.quantity)).sum

/-- Number of rows the list holds for (user, product). -/
def cartCount (uid pid : Nat) (l : List CartItem) : Nat :=
  (l.filter (isUP uid pid)).length

/-- Body of `merge_duplicate_cart_items`: walking the user's rows in id
order, the first row of each product keeps the group's total quantity and
the later duplicates are deleted; rows of other users are untouched.
`seen` records the products of this user already kept. -/
def coalesceCart (uid : Nat) (seen : List Nat) : List CartItem → List CartItem
  | [] => []
  | r :: rest =>
    if r.user_id == uid then
      if r.product_id ∈ seen then
        coalesceCart uid seen rest
      else
        { r with quantity := r.quantity + cartQty uid r.product_id rest } ::
          coalesceCart uid (r.product_id :: seen) rest
    else
      r :: coalesceCart uid seen rest

/-- `merge_duplicate_cart_items(user_id)`. -/
def merge_duplicate_cart_items (s : DB M) (uid : Nat) : DB M :=
  { s with cart := coalesceCart uid [] s.cart }

/-- Mutate the first row satisfying the predicate (the row fetched by a
`SELECT … FOR UPDATE` and edited in place). -/
def updateFirst (p : CartItem → Bool) (f : CartItem → CartItem) : List CartItem → List CartItem
  | [] => []
  | x :: xs => if p x then f x :: xs else x :: updateFirst p f xs

/-- `add_to_cart(user_id, product_id, quantity)`: first coalesce the
user's duplicates, then either increment the existing (user, product) row
or insert a new one; returns the resulting row. -/
def add_to_cart (s : DB M) (uid pid : Nat) (q : Int) : DB M × CartItem :=
  let s1 := merge_duplicate_cart_items s uid
  match s1.cart.find? (isUP uid pid) with
  | some item =>
      let cart' := updateFirst (isUP uid pid) (fun r => { r with quantity := r.quantity + q }) s1.cart
      ({ s1 with cart := cart' }, { item with quantity := item.quantity + q })
  | none =>
      let row : CartItem := ⟨s1.nextCartId, uid, pid, q⟩
      ({ s1 with cart := s1.cart ++ [row], nextCartId := s1.nextCartId + 1 }, row)

/-- `get_user_cart(user_id)`: coalesce duplicates, then return the user's
rows in id order. -/
def get_user_cart (s : DB M) (uid : Nat) : DB M × List CartItem :=
  let s1 := merge_duplicate_cart_items s uid
  (s1, s1.cart.filter (fun r => r.user_id == uid))

/-- `update_cart_item_quantity(cart_id, quantity)`: delete the row when
the quantity is non-positive, otherwise set it. -/
def update_cart_item_quantity (s : DB M) (cid : Nat) (q : Int) : DB M :=
  if q ≤ 0 then
    { s with cart := s.cart.filter (fun r => !(r.id == cid)) }
  else
    { s with cart := s.cart.map (fun r => if r.id == cid then { r with quantity := q } else r) }

/-- `remove_from_cart(cart_id)`. -/
def remove_from_cart (s : DB M) (cid : Nat) : DB M :=
  { s with cart := s.cart.filter (fun r => !(r.id == cid)) }

/-- `clear_user_cart(user_id)`. -/
def clear_user_cart (s : DB M) (uid : Nat) : DB M :=
  { s with cart := s.cart.filter (fun r => !(r.user_id == uid)) }

/-! ## Order Engine -/

/-- A line-item spec accumulated on the create path of `create_order`
(`order_items_list` entries: product id, quantity, price at order). -/
structure ItemSpec (M : Type) where
  pid : Nat
  qty : Int
  price : M
deriving DecidableEq, Repr

/-- Does a line item belong to the order and match (product, price)? -/
def keyP (oid pid : Nat) (pr : M) (it : OrderItem M) : Bool :=
  it.order_id == oid && it.product_id == pid && decide (it.price_at_order = pr)

/-- Total quantity the order holds for (product, price_at_order). -/
def ordQty (oid pid : Nat) (pr : M) (l : List (OrderItem M)) : Int :=
  ((l.filter (keyP oid pid pr)).map (fun it => it.quantity)).sum

/-- Increment the first line item satisfying the predicate by `q` and
delete the remaining matches (the amend path's duplicate collapse). -/
def bumpFirstDropRest (p : OrderItem M → Bool) (q : Int) : List (OrderItem M) → List (OrderItem M)
  | [] => []
  | x :: xs =>
    if p x then { x with quantity := x.quantity + q } :: xs.filter (fun y => !(p y))
    else x :: bumpFirstDropRest p q xs

/-- The availability/stock acceptance test of `create_order`:
the product exists, is available, and has stock for the requested
quantity. -/
def acceptable (ps : List (Product M)) (ci : CartItem) : Prop :=
  ∃ p, findProduct ps ci.product_id = some p ∧
    p.is_available = true ∧ ci.quantity ≤ p.stock_quantity

/-- Amend path of `create_order`: walk the cart entries, skipping the
unacceptable ones; for each accepted entry add its price to the running
total, merge it into an existing (product, price) line item of the order
or insert a new one, and decrement the stock. -/
def amendLoop (oid : Nat) (s : DB M) (tot : M) : List CartItem → DB M × M
  | [] => (s, tot)
  | ci :: rest =>
    match findProduct s.products ci.product_id with
    | some p =>
      if p.is_available ∧ ci.quantity ≤ p.stock_quantity then
        let tot' := tot + p.price * (ci.quantity : M)
        let matching := s.orderItems.filter (keyP oid p.id p.price)
        let s1 :=
          if matching.isEmpty then
            { s with orderItems := s.orderItems ++ [⟨s.nextItemId, oid, p.id, ci.quantity, p.price⟩],
                     nextItemId := s.nextItemId + 1 }
          else
            { s with orderItems := bumpFirstDropRest (keyP oid p.id p.price) ci.quantity s.orderItems }
        amendLoop oid (update_stock s1 p.id (-ci.quantity)) tot' rest
      else amendLoop oid s tot rest
    | none => amendLoop oid s tot rest

/-- Create path loop of `create_order`: accumulate the total and the
line-item specs over the accepted entries, decrementing stock. -/
def createLoop (s : DB M) (tot : M) (specs : List (ItemSpec M)) : List CartItem → DB M × M × List (ItemSpec M)
  | [] => (s, tot, specs)
  | ci :: rest =>
    match findProduct s.products ci.product_id with
    | some p =>
      if p.is_available ∧ ci.quantity ≤ p.stock_quantity then
        createLoop (update_stock s p.id (-ci.quantity)) (tot + p.price * (ci.quantity : M))
          (specs ++ [⟨p.id, ci.quantity, p.price⟩]) rest
      else createLoop s tot specs rest
    | none => createLoop s tot specs rest

/-- Insert one `OrderItem` row per accumulated spec (create path). -/
def insertItems (oid : Nat) (s : DB M) : List (ItemSpec M) → DB M
  | [] => s
  | sp :: rest =>
      insertItems oid
        { s with orderItems := s.orderItems ++ [⟨s.nextItemId, oid, sp.pid, sp.qty, sp.price⟩],
                 nextItemId := s.nextItemId + 1 } rest

/-- The user's orders in `processing` status, in creation order. -/
def procOrders (s : DB M) (uid : Nat) : List (Order M) :=
  s.orders.filter (fun o => o.user_id == uid && o.status == "processing")

/-- Number of `processing` orders the user has. -/
def processingCount (s : DB M) (uid : Nat) : Nat :=
  (procOrders s uid).length

/-- `create_order(user_id, cart_items, contact_info, delivery_method,
delivery_fee)`: amend the user's most recent `processing` order if one
exists, otherwise create a new order; either way clear the user's cart
and return the resulting order. -/
def create_order (s : DB M) (uid : Nat) (cartItems : List CartItem)
    (contact : Option String) (dmethod : String) (dfee : M) : DB M × Order M :=
  match (procOrders s uid).getLast? with
  | some existing =>
      let r := amendLoop existing.id s 0 cartItems
      let s2 := { r.1 with orders := r.1.orders.map (fun o =>
                    if o.id == existing.id then { o with total_price := o.total_price + r.2 } else o) }
      (clear_user_cart s2 uid, { existing with total_price := existing.total_price + r.2 })
  | none =>
      let r := createLoop s 0 [] cartItems
      let total := r.2.1 + dfee
      let newOrder : Order M :=
        ⟨r.1.nextOrderId, uid, total, "processing", dmethod, dfee, contact⟩
      let s2 := { r.1 with orders := r.1.orders ++ [newOrder], nextOrderId := r.1.nextOrderId + 1 }
      (clear_user_cart (insertItems newOrder.id s2 r.2.2) uid, newOrder)

/-- Body of `merge_duplicate_order_items`: walking the order's line items
in id order, the first item of each (product, price_at_order) key keeps
the group's total quantity and later duplicates are deleted; items of
other orders are untouched. -/
def coalesceOrd (oid : Nat) (seen : List (Nat × M)) : List (OrderItem M) → List (OrderItem M)
  | [] => []
  | it :: rest =>
    if it.order_id == oid then
      if (it.product_id, it.price_at_order) ∈ seen then
        coalesceOrd oid seen rest
      else
        { it with quantity := it.quantity + ordQty oid it.product_id it.price_at_order rest } ::
          coalesceOrd oid ((it.product_id, it.price_at_order) :: seen) rest
    else
      it :: coalesceOrd oid seen rest

/-- `merge_duplicate_order_items(order_id)`. -/
def merge_duplicate_order_items (s : DB M) (oid : Nat) : DB M :=
  { s with orderItems := coalesceOrd oid [] s.orderItems }

/-- `update_order_status(order_id, status)`. -/
def update_order_status (s : DB M) (oid : Nat) (st : String) : DB M :=
  { s with orders := s.orders.map (fun o => if o.id == oid then { o with status := st } else o) }

/-- `delete_order(order_id)`: when the order exists, restore each line
item's quantity to its product's stock, then delete the order and (by
cascade) its line items, returning `true`; otherwise return `false`. -/
def delete_order (s : DB M) (oid : Nat) : DB M × Bool :=
  match s.orders.find? (fun o => o.id == oid) with
  | none => (s, false)
  | some _ =>
      let items := s.orderItems.filter (fun it => it.order_id == oid)
      let s1 := items.foldl (fun st it => update_stock st it.product_id it.quantity) s
      ({ s1 with orders := s1.orders.filter (fun o => !(o.id == oid)),
                 orderItems := s1.orderItems.filter (fun it => !(it.order_id == oid)) }, true)

/-! ## Specification-side derived functions -/

/-- The (product, quantity, price) entries `create_order` accepts from a
cart, evaluated against the evolving products table: the loop of both
paths projected to the products table. -/
def acceptedSpecs (ps : List (Product M)) : List CartItem → List (ItemSpec M)
  | [] => []
  | ci :: rest =>
    match findProduct ps ci.product_id with
    | some p =>
      if p.is_available ∧ ci.quantity ≤ p.stock_quantity then
        ⟨p.id, ci.quantity, p.price⟩ :: acceptedSpecs (updStock ps p.id (-ci.quantity)) rest
      else acceptedSpecs ps rest
    | none => acceptedSpecs ps rest

/-- The products table after `create_order` has walked a cart. -/
def stockAfter (ps : List (Product M)) : List CartItem → List (Product M)
  | [] => ps
  | ci :: rest =>
    match findProduct ps ci.product_id with
    | some p =>
      if p.is_available ∧ ci.quantity ≤ p.stock_quantity then
        stockAfter (updStock ps p.id (-ci.quantity)) rest
      else stockAfter ps rest
    | none => stockAfter ps rest

/-- Monetary value of a list of line-item specs: price × quantity summed. -/
def sumPQ (l : List (ItemSpec M)) : M :=
  (l.map (fun sp => sp.price * (sp.qty : M))).sum

/-- The line items the create path inserts for the accumulated specs,
ids assigned sequentially from `base`. -/
def itemsFromSpecs (base oid : Nat) : List (ItemSpec M) → List (OrderItem M)
  | [] => []
  | sp :: rest => ⟨base, oid, sp.pid, sp.qty, sp.price⟩ :: itemsFromSpecs (base + 1) oid rest

/-- A sequence of `add_to_cart` calls for one (user, product). -/
def addToCartSeq (s : DB M) (uid pid : Nat) : List Int → DB M
  | [] => s
  | q :: qs => addToCartSeq (add_to_cart s uid pid q).1 uid pid qs

/-! ## Concrete states for the witnesses (monetary type `ℤ`) -/

/-- Cart holding two duplicate rows for user 7, product 42. -/
def cartSeqDb : DB Int :=
  ⟨[], [⟨1, 7, 42, 2⟩, ⟨2, 7, 42, 3⟩], [], [], 3, 1, 1⟩

/-- Cart holding two duplicate rows for user 7, product 42. -/
def cartDupDb : DB Int :=
  ⟨[], [⟨1, 7, 42, 2⟩, ⟨2, 7, 42, 3⟩], [], [], 3, 1, 1⟩

/-- Scenario A: product X (id 1, price 10, stock 5), product Y (id 2,
price 8, stock 4); user 1's cart holds X qty 3 and Y qty 1; no orders. -/
def dbScenarioA : DB Int :=
  ⟨[⟨1, 1, "x", 10, 5, true⟩, ⟨2, 1, "y", 8, 4, true⟩],
   [⟨1, 1, 1, 3⟩, ⟨2, 1, 2, 1⟩], [], [], 3, 1, 1⟩

/-- Scenario B: user 1 has processing order 1 (total 38) and X qty 2 in
the cart; X has stock 2. -/
def dbAmend : DB Int :=
  ⟨[⟨1, 1, "x", 10, 2, true⟩, ⟨2, 1, "y", 8, 3, true⟩],
   [⟨3, 1, 1, 2⟩],
   [⟨1, 1, 38, "processing", "pickup", 0, none⟩],
   [⟨1, 1, 1, 3, 10⟩, ⟨2, 1, 2, 1, 8⟩], 4, 2, 3⟩

/-- Same shape as `dbAmend`, used by the amend-path frame witness. -/
def dbAmendFrame : DB Int :=
  ⟨[⟨1, 1, "x", 10, 2, true⟩, ⟨2, 1, "y", 8, 3, true⟩],
   [⟨3, 1, 1, 2⟩],
   [⟨1, 1, 38, "processing", "pickup", 0, some "tg"⟩],
   [⟨1, 1, 1, 3, 10⟩, ⟨2, 1, 2, 1, 8⟩], 4, 2, 3⟩

/-- Scenario D: order 7 holds X qty 5 and Y qty 1; X has stock 0, Y
stock 3. -/
def dbDeleteOrd : DB Int :=
  ⟨[⟨1, 1, "x", 10, 0, true⟩, ⟨2, 1, "y", 8, 3, true⟩],
   [],
   [⟨7, 1, 58, "processing", "pickup", 0, none⟩],
   [⟨1, 7, 1, 5, 10⟩, ⟨2, 7, 2, 1, 8⟩], 1, 8, 3⟩

/-- Scenario E: product Z (id 3) has stock 0; the cart holds X qty 3 and
Z qty 1. -/
def dbZeroStock : DB Int :=
  ⟨[⟨1, 1, "x", 10, 5, true⟩, ⟨3, 1, "z", 9, 0, true⟩],
   [⟨1, 1, 1, 3⟩, ⟨2, 1, 3, 1⟩], [], [], 3, 1, 1⟩

/-- A single product with stock 4. -/
def dbStock : DB Int :=
  ⟨[⟨5, 1, "x", 10, 4, true⟩], [], [], [], 1, 1, 1⟩

/-- Order 9 holds duplicate line items for product 5 at price 10. -/
def dbDupItems : DB Int :=
  ⟨[], [],
   [⟨9, 1, 100, "processing", "pickup", 0, none⟩],
   [⟨1, 9, 5, 2, 10⟩, ⟨2, 9, 5, 3, 10⟩, ⟨3, 9, 5, 1, 12⟩, ⟨4, 8, 5, 7, 10⟩],
   1, 10, 5⟩

/-- A product (id 5, price 10) and a line item frozen at price 10. -/
def dbSnapshot : DB Int :=
  ⟨[⟨5, 1, "x", 10, 4, true⟩], [],
   [⟨1, 1, 10, "completed", "pickup", 0, none⟩],
   [⟨1, 1, 5, 1, 10⟩], 1, 2, 2⟩

/-- The user's cart holds at most one row per product. -/
def cartNoDups (uid : Nat) (s : DB M) : Prop :=
  ∀ pid, cartCount uid pid s.cart ≤ 1

/-- Cart holding a single row for user 7, product 42. -/
def cartOkDb : DB Int :=
  ⟨[], [⟨1, 7, 42, 2⟩], [], [], 2, 1, 1⟩

/-! ## Generic list lemmas -/

theorem filter_map_length_eq {α : Type} (g : α → α) (P : α → Bool)
    (h : ∀ a, P (g a) = P a) (l : List α) :
    ((l.map g).filter P).length = (l.filter P).length := by
  induction l with
  | nil => rfl
  | cons x xs ih =>
    by_cases hx : P x = true
    · simp [List.filter_cons, h, hx, ih]
    · simp [List.filter_cons, h, hx, ih]

theorem filter_sub_length_le {α : Type} (K P : α → Bool) (l : List α) :
    ((l.filter K).filter P).length ≤ (l.filter P).length :=
  List.Sublist.length_le (List.Sublist.filter P (List.filter_sublist l))

theorem find?_eq_head?_of_filter {α : Type} (p : α → Bool) (l : List α) :
    l.find? p = (l.filter p).head? := by
  induction l with
  | nil => rfl
  | cons x xs ih =>
    by_cases hx : p x = true
    · rw [List.find?_cons_of_pos _ hx, List.filter_cons_of_pos hx]
      rfl
    · rw [List.find?_cons_of_neg _ (by simp [hx]), List.filter_cons_of_neg (by simp [hx]), ih]

/-! ## Cart Ledger lemmas -/

theorem cartQty_cons (uid pid : Nat) (r : CartItem) (t : List CartItem) :
    cartQty uid pid (r :: t) =
      if isUP uid pid r then r.quantity + cartQty uid pid t else cartQty uid pid t := by
  by_cases h : isUP uid pid r = true
  · simp [cartQty, List.filter_cons, h]
  · simp [cartQty, List.filter_cons, h]

theorem cartCount_cons (uid pid : Nat) (r : CartItem) (t : List CartItem) :
    cartCount uid pid (r :: t) =
      if isUP uid pid r then cartCount uid pid t + 1 else cartCount uid pid t := by
  by_cases h : isUP uid pid r = true
  · simp [cartCount, List.filter_cons, h]
  · simp [cartCount, List.filter_cons, h]

theorem isUP_true_iff (uid pid : Nat) (r : CartItem) :
    isUP uid pid r = true ↔ r.user_id = uid ∧ r.product_id = pid := by
  simp [isUP]

theorem coalesceCart_qty (uid pid : Nat) (l : List CartItem) :
    ∀ seen : List Nat,
      cartQty uid pid (coalesceCart uid seen l) =
        if pid ∈ seen then 0 else cartQty uid pid l := by
  induction l with
  | nil => intro seen; simp [coalesceCart, cartQty]
  | cons r rest ih =>
    intro seen
    rw [coalesceCart]
    by_cases hu : r.user_id = uid
    · rw [if_pos (by simp [hu])]
      by_cases hs : r.product_id ∈ seen
      · rw [if_pos hs, ih seen, cartQty_cons]
        by_cases hp : pid ∈ seen
        · simp [hp]
        · have hne : isUP uid pid r = false := by
            have : r.product_id ≠ pid := fun he => hp (he ▸ hs)
            simp [isUP, this]
          simp [hp, hne]
      · rw [if_neg hs, cartQty_cons, cartQty_cons, ih (r.product_id :: seen)]
        by_cases hp : pid = r.product_id
        · subst hp
          simp only [isUP, hu, beq_self_eq_true, Bool.and_self, if_true,
            List.mem_cons, true_or, if_pos, hs, if_neg, if_false]
          simp [hs]
        · have hpr : r.product_id ≠ pid := fun he => hp he.symm
          have hup : isUP uid pid { r with quantity := r.quantity + cartQty uid r.product_id rest } = false := by
            simp [isUP, hpr]
          have hr : isUP uid pid r = false := by
            simp [isUP, hpr]
          simp [hup, hr, hp]
    · rw [if_neg (by simp [hu]), cartQty_cons, ih seen]
      have hr : isUP uid pid r = false := by
        simp [isUP, hu]
      simp [cartQty_cons, hr]

theorem cartQty_append (uid pid : Nat) (l1 l2 : List CartItem) :
    cartQty uid pid (l1 ++ l2) = cartQty uid pid l1 + cartQty uid pid l2 := by
  simp [cartQty, List.filter_append]

theorem cartCount_append (uid pid : Nat) (l1 l2 : List CartItem) :
    cartCount uid pid (l1 ++ l2) = cartCount uid pid l1 + cartCount uid pid l2 := by
  simp [cartCount, List.filter_append]

theorem coalesceCart_count (uid pid : Nat) (l : List CartItem) :
    ∀ seen : List Nat,
      cartCount uid pid (coalesceCart uid seen l) =
        if pid ∈ seen then 0 else min 1 (cartCount uid pid l) := by
  induction l with
  | nil => intro seen; simp [coalesceCart, cartCount]
  | cons r rest ih =>
    intro seen
    rw [coalesceCart]
    by_cases hu : r.user_id = uid
    · rw [if_pos (by simp [hu])]
      by_cases hs : r.product_id ∈ seen
      · rw [if_pos hs, ih seen, cartCount_cons]
        by_cases hp : pid ∈ seen
        · simp [hp]
        · have hne : isUP uid pid r = false := by
            have : r.product_id ≠ pid := fun he => hp (he ▸ hs)
            simp [isUP, this]
          simp [hp, hne]
      · rw [if_neg hs, cartCount_cons, cartCount_cons, ih (r.product_id :: seen)]
        by_cases hp : pid = r.product_id
        · subst hp
          simp only [isUP, hu, beq_self_eq_true, Bool.and_self, if_true,
            List.mem_cons, true_or, if_pos, if_true]
          simp [hs]
        · have hpr : r.product_id ≠ pid := fun he => hp he.symm
          have hup : isUP uid pid { r with quantity := r.quantity + cartQty uid r.product_id rest } = false := by
            simp [isUP, hpr]
          have hr : isUP uid pid r = false := by
            simp [isUP, hpr]
          simp [hup, hr, hp]
    · rw [if_neg (by simp [hu]), cartCount_cons, ih seen]
      have hr : isUP uid pid r = false := by
        simp [isUP, hu]
      simp [cartCount_cons, hr]

theorem updateFirst_filter (p : CartItem → Bool) (f : CartItem → CartItem)
    (hf : ∀ r, p (f r) = p r) (l : List CartItem) :
    (updateFirst p f l).filter p =
      match l.filter p with
      | [] => []
      | x :: xs => f x :: xs := by
  induction l with
  | nil => rfl
  | cons x xs ih =>
    by_cases hx : p x = true
    · rw [updateFirst, if_pos hx, List.filter_cons_of_pos hx,
        List.filter_cons_of_pos (by rw [hf]; exact hx)]
    · rw [updateFirst, if_neg (by simp [hx]), List.filter_cons_of_neg (by simp [hx]),
        List.filter_cons_of_neg (by simp [hx]), ih]

theorem updateFirst_filter_length (p : CartItem → Bool) (f : CartItem → CartItem)
    (P : CartItem → Bool) (hf : ∀ r, P (f r) = P r) (l : List CartItem) :
    ((updateFirst p f l).filter P).length = (l.filter P).length := by
  induction l with
  | nil => rfl
  | cons x xs ih =>
    by_cases hx : p x = true
    · rw [updateFirst, if_pos hx]
      by_cases hP : P x = true
      · rw [List.filter_cons_of_pos (by rw [hf]; exact hP), List.filter_cons_of_pos hP]
        simp
      · rw [List.filter_cons_of_neg (by simp [hf, hP]), List.filter_cons_of_neg (by simp [hP])]
    · rw [updateFirst, if_neg (by simp [hx])]
      by_cases hP : P x = true
      · rw [List.filter_cons_of_pos hP, List.filter_cons_of_pos hP]
        simp [ih]
      · rw [List.filter_cons_of_neg (by simp [hP]), List.filter_cons_of_neg (by simp [hP]), ih]

/-- One `add_to_cart` call leaves exactly one (user, product) row, holding
the previous total plus the added quantity. -/
theorem add_to_cart_qty_count (s : DB M) (uid pid : Nat) (q : Int) :
    cartCount uid pid (add_to_cart s uid pid q).1.cart = 1 ∧
    cartQty uid pid (add_to_cart s uid pid q).1.cart = cartQty uid pid s.cart + q := by
  have hq : cartQty uid pid (coalesceCart uid [] s.cart) = cartQty uid pid s.cart := by
    simpa using coalesceCart_qty uid pid s.cart []
  have hc : cartCount uid pid (coalesceCart uid [] s.cart) = min 1 (cartCount uid pid s.cart) := by
    simpa using coalesceCart_count uid pid s.cart []
  rw [add_to_cart]
  cases hfind : (merge_duplicate_cart_items s uid).cart.find? (isUP uid pid) with
  | none =>
    have hfind' : (coalesceCart uid [] s.cart).find? (isUP uid pid) = none := by
      simpa [merge_duplicate_cart_items] using hfind
    have hfil : (coalesceCart uid [] s.cart).filter (isUP uid pid) = [] := by
      have h1 := find?_eq_head?_of_filter (isUP uid pid) (coalesceCart uid [] s.cart)
      rw [hfind'] at h1
      exact List.head?_eq_none_iff.mp h1.symm
    have h0 : cartQty uid pid (coalesceCart uid [] s.cart) = 0 := by
      simp [cartQty, hfil]
    constructor
    · simp only [merge_duplicate_cart_items, cartCount_append]
      rw [show cartCount uid pid (coalesceCart uid [] s.cart) = 0 from by simp [cartCount, hfil]]
      simp [cartCount, cartCount_cons, isUP]
    · simp only [merge_duplicate_cart_items, cartQty_append]
      rw [h0, ← hq, h0]
      simp [cartQty, cartQty_cons, isUP]
  | some item =>
    have hfind' : (coalesceCart uid [] s.cart).find? (isUP uid pid) = some item := by
      simpa [merge_duplicate_cart_items] using hfind
    have hfil : (coalesceCart uid [] s.cart).filter (isUP uid pid) = [item] := by
      have h1 := find?_eq_head?_of_filter (isUP uid pid) (coalesceCart uid [] s.cart)
      rw [hfind'] at h1
      have hle : ((coalesceCart uid [] s.cart).filter (isUP uid pid)).length ≤ 1 := by
        have h2 := hc
        simp only [cartCount] at h2
        omega
      cases hf : (coalesceCart uid [] s.cart).filter (isUP uid pid) with
      | nil => rw [hf] at h1; exact absurd h1 (by simp)
      | cons x xs =>
        rw [hf] at h1 hle
        simp only [List.head?_cons, Option.some.injEq] at h1
        simp only [List.length_cons] at hle
        have hxs : xs = [] := List.length_eq_zero.mp (by omega)
        subst hxs
        rw [h1]
    have hup := updateFirst_filter (isUP uid pid)
      (fun r => { r with quantity := r.quantity + q }) (fun r => rfl)
      (merge_duplicate_cart_items s uid).cart
    simp only [merge_duplicate_cart_items] at hup hfil ⊢
    rw [hfil] at hup
    constructor
    · simp [cartCount, hup]
    · rw [show cartQty uid pid s.cart = item.quantity from by
        rw [← hq]; simp [cartQty, hfil]]
      simp [cartQty, hup]

/-! ## Claim C2: cart accumulation -/

/-- C2.  For every sequence of `addToCart(u, p, q)` calls with the same
user `u` and product `p`, starting from any cart state (including one
already containing duplicate rows for `p`), the resulting cart contains
exactly one row for (u, p) and its quantity equals the sum of all the
`q`s plus any pre-existing quantity for `p`. -/
theorem addToCartSeq_unique_and_sums (s : DB M) (uid pid : Nat) (qs : List Int)
    (h : qs ≠ []) :
    cartCount uid pid (addToCartSeq s uid pid qs).cart = 1 ∧
    cartQty uid pid (addToCartSeq s uid pid qs).cart = cartQty uid pid s.cart + qs.sum := by
  induction qs generalizing s with
  | nil => exact absurd rfl h
  | cons q qs ih =>
    cases qs with
    | nil =>
      have hadd := add_to_cart_qty_count s uid pid q
      simp only [addToCartSeq]
      exact ⟨hadd.1, by rw [hadd.2]; simp⟩
    | cons q2 qs2 =>
      have hadd := add_to_cart_qty_count s uid pid q
      have hih := ih (add_to_cart s uid pid q).1 (by simp)
      constructor
      · rw [addToCartSeq]
        exact hih.1
      · rw [addToCartSeq, hih.2, hadd.2]
        simp
        ring

/-- Witness for C2 on a cart that already holds duplicate rows for the
product: the two calls collapse everything into one row with the summed
quantity. -/
theorem addToCartSeq_unique_and_sums_witness :
    ([(1 : Int), 2] ≠ []) ∧
    (cartCount 7 42 (addToCartSeq cartSeqDb 7 42 [1, 2]).cart = 1 ∧
     cartQty 7 42 (addToCartSeq cartSeqDb 7 42 [1, 2]).cart =
       cartQty 7 42 cartSeqDb.cart + [(1 : Int), 2].sum) :=
  ⟨by decide, addToCartSeq_unique_and_sums cartSeqDb 7 42 [1, 2] (by decide)⟩

/-! ## Claim C8: when the duplicate repair runs -/

/-- After one `add_to_cart` for any product, the user's cart holds at
most one row per product. -/
theorem add_to_cart_count_le (s : DB M) (uid apid : Nat) (q : Int) (pid : Nat) :
    cartCount uid pid (add_to_cart s uid apid q).1.cart ≤ 1 := by
  have hc : cartCount uid pid (coalesceCart uid [] s.cart) = min 1 (cartCount uid pid s.cart) := by
    simpa using coalesceCart_count uid pid s.cart []
  rw [add_to_cart]
  cases hfind : (merge_duplicate_cart_items s uid).cart.find? (isUP uid apid) with
  | none =>
    have hfind' : (coalesceCart uid [] s.cart).find? (isUP uid apid) = none := by
      simpa [merge_duplicate_cart_items] using hfind
    have hfil : (coalesceCart uid [] s.cart).filter (isUP uid apid) = [] := by
      have h1 := find?_eq_head?_of_filter (isUP uid apid) (coalesceCart uid [] s.cart)
      rw [hfind'] at h1
      exact List.head?_eq_none_iff.mp h1.symm
    simp only [merge_duplicate_cart_items, cartCount_append]
    by_cases hp : pid = apid
    · subst hp
      rw [show cartCount uid pid (coalesceCart uid [] s.cart) = 0 from by simp [cartCount, hfil]]
      simp [cartCount, cartCount_cons, isUP]
    · have hrow : isUP uid pid (⟨(merge_duplicate_cart_items s uid).nextCartId, uid, apid, q⟩ : CartItem) = false := by
        simp [isUP, Ne.symm hp]
      have : cartCount uid pid [(⟨(merge_duplicate_cart_items s uid).nextCartId, uid, apid, q⟩ : CartItem)] = 0 := by
        simp [cartCount, List.filter_cons, hrow]
      simp only [merge_duplicate_cart_items] at this
      rw [this, hc]
      omega
  | some item =>
    have hlen := updateFirst_filter_length (isUP uid apid)
      (fun r => { r with quantity := r.quantity + q }) (isUP uid pid) (fun r => rfl)
      (merge_duplicate_cart_items s uid).cart
    simp only [cartCount] at hc ⊢
    simp only [merge_duplicate_cart_items] at hlen hc ⊢
    rw [hlen]
    omega

/-- C8 counterexample: the duplicate-row repair is not run by
`remove_from_cart` or `update_cart_item_quantity`; starting from a cart
with two rows for (user 7, product 42), both operations leave both rows
in place, so the cart does not hold at most one row per product after
every cart operation. -/
theorem cart_repair_skipped_on_remove :
    cartCount 7 42 (remove_from_cart cartDupDb 99).cart = 2 ∧
    cartCount 7 42 (update_cart_item_quantity cartDupDb 1 5).cart = 2 := by
  constructor
  · decide
  · decide

/-- C8 amended: the duplicate-row coalescing repair runs on `addToCart`
and `getCart` (the insert and read paths) — after either, the user's
cart holds at most one row per product — and `clearCart` leaves the user
no rows at all; but `updateQuantity` and `removeEntry` do not run the
repair: they merely preserve at-most-one-row-per-product when it already
holds. -/
theorem cart_repair_on_add_get (s : DB M) (uid apid pid cid : Nat) (q qt : Int) :
    cartCount uid pid (add_to_cart s uid apid q).1.cart ≤ 1 ∧
    cartCount uid pid (get_user_cart s uid).1.cart ≤ 1 ∧
    (clear_user_cart s uid).cart.filter (fun r => r.user_id == uid) = [] ∧
    (cartNoDups uid s → cartNoDups uid (update_cart_item_quantity s cid qt)) ∧
    (cartNoDups uid s → cartNoDups uid (remove_from_cart s cid)) := by
  refine ⟨add_to_cart_count_le s uid apid q pid, ?_, ?_, ?_, ?_⟩
  · have hc : cartCount uid pid (coalesceCart uid [] s.cart) = min 1 (cartCount uid pid s.cart) := by
      simpa using coalesceCart_count uid pid s.cart []
    simp only [get_user_cart, merge_duplicate_cart_items]
    rw [hc]
    omega
  · simp [clear_user_cart, List.filter_filter]
  · intro h pid'
    rw [update_cart_item_quantity]
    by_cases hqt : qt ≤ 0
    · rw [if_pos hqt]
      exact le_trans (filter_sub_length_le _ _ s.cart) (h pid')
    · rw [if_neg hqt]
      have := filter_map_length_eq (fun r => if r.id == cid then { r with quantity := qt } else r)
        (isUP uid pid') (fun r => by by_cases hid : r.id = cid <;> simp [isUP, hid]) s.cart
      simp only [cartCount]
      rw [this]
      exact h pid'
  · intro h pid'
    exact le_trans (filter_sub_length_le _ _ s.cart) (h pid')

/-- Witness for C8's amended statement: a duplicate-free one-row cart
stays duplicate-free through `update_cart_item_quantity` and
`remove_from_cart`. -/
theorem cart_repair_on_add_get_witness :
    cartNoDups 7 cartOkDb ∧
    cartNoDups 7 (update_cart_item_quantity cartOkDb 1 5) ∧
    cartNoDups 7 (remove_from_cart cartOkDb 1) := by
  have hnd : cartNoDups 7 cartOkDb := by
    intro pid
    exact le_trans (List.length_filter_le _ _) (by decide)
  exact ⟨hnd, (cart_repair_on_add_get cartOkDb 7 42 42 1 1 5).2.2.2.1 hnd,
    (cart_repair_on_add_get cartOkDb 7 42 42 1 1 5).2.2.2.2 hnd⟩

/-! ## Catalog Store lemmas -/

theorem findProduct_map_preserving (g : Product M → Product M)
    (hg : ∀ p, (g p).id = p.id) (pid tid : Nat) (ps : List (Product M)) :
    findProduct (ps.map (fun p => if p.id == pid then g p else p)) tid =
      Option.map (fun p => if p.id == pid then g p else p) (findProduct ps tid) := by
  induction ps with
  | nil => rfl
  | cons p rest ih =>
    have hstep : (if (p.id == pid) = true then g p else p).id = p.id := by
      by_cases hpp : (p.id == pid) = true
      · rw [if_pos hpp, hg]
      · rw [if_neg hpp]
    have hbeq : ((if (p.id == pid) = true then g p else p).id == tid) = (p.id == tid) := by
      rw [hstep]
    by_cases hpt : (p.id == tid) = true
    · rw [findProduct, findProduct, List.map_cons,
        List.find?_cons_of_pos _ (by exact hbeq.trans hpt), List.find?_cons_of_pos _ (by exact hpt)]
      rfl
    · rw [findProduct, findProduct, List.map_cons,
        List.find?_cons_of_neg _ (by simp only [hstep]; exact hpt),
        List.find?_cons_of_neg _ (by exact hpt)]
      exact ih

theorem findProduct_setStock (ps : List (Product M)) (pid : Nat) (v : Int) (p : Product M)
    (h : findProduct ps pid = some p) :
    findProduct (setStock ps pid v) pid = some { p with stock_quantity := v } := by
  have hid : p.id = pid := by
    have := List.find?_some h
    simpa using this
  rw [setStock, findProduct_map_preserving (fun r => { r with stock_quantity := v }) (fun r => rfl) pid pid, h]
  simp [hid]

/-! ## Claim C6: stock clamping -/

/-- C6.  `adjustStock(productId, delta)` (source name `update_stock`)
sets the product's stock to max(0, current stock + delta); whatever the
sign and magnitude of the delta, the resulting stock is never below
zero. -/
theorem update_stock_clamps (s : DB M) (pid : Nat) (d : Int) (p : Product M)
    (h : get_product_by_id s pid = some p) :
    get_product_by_id (update_stock s pid d) pid =
      some { p with stock_quantity := max 0 (p.stock_quantity + d) } ∧
    ∀ q, get_product_by_id (update_stock s pid d) pid = some q → 0 ≤ q.stock_quantity := by
  have hmain : get_product_by_id (update_stock s pid d) pid =
      some { p with stock_quantity := max 0 (p.stock_quantity + d) } := by
    rw [update_stock, get_product_by_id] at *
    simp only [updStock]
    rw [show findProduct s.products pid = some p from h]
    exact findProduct_setStock s.products pid _ p h
  refine ⟨hmain, ?_⟩
  intro q hq
  rw [hmain] at hq
  cases hq
  exact le_max_left 0 _

/-- Witness for C6: stock 4, delta −10, clamped to 0. -/
theorem update_stock_clamps_witness :
    get_product_by_id dbStock 5 = some ⟨5, 1, "x", 10, 4, true⟩ ∧
    get_product_by_id (update_stock dbStock 5 (-10)) 5 =
      some { (⟨5, 1, "x", 10, 4, true⟩ : Product Int) with stock_quantity := max 0 (4 + -10) } :=
  ⟨by decide, (update_stock_clamps dbStock 5 (-10) ⟨5, 1, "x", 10, 4, true⟩ (by decide)).1⟩

/-! ## Claim C9: price snapshot -/

/-- C9.  Changing a product's price through the product-update operation
does not alter `price_at_order` on any existing line item (the order
items table is untouched), and neither does any other catalog mutation
(stock adjustment, product creation, product deletion); the price change
itself does land on the product row. -/
theorem price_at_order_immutable (s : DB M) (pid : Nat) (v : M) (d : Int) (p0 : Product M) :
    (update_product_price s pid v).orderItems = s.orderItems ∧
    (update_stock s pid d).orderItems = s.orderItems ∧
    (create_product s p0).orderItems = s.orderItems ∧
    (delete_product s pid).orderItems = s.orderItems ∧
    ∀ p, get_product_by_id s pid = some p →
      get_product_by_id (update_product_price s pid v) pid = some { p with price := v } := by
  refine ⟨rfl, rfl, rfl, rfl, ?_⟩
  intro p h
  have hid : p.id = pid := by
    have := List.find?_some h
    simpa [findProduct] using this
  rw [update_product_price, get_product_by_id]
  simp only
  rw [findProduct_map_preserving (fun r => { r with price := v }) (fun r => rfl) pid pid]
  rw [get_product_by_id] at h
  rw [h]
  simp [hid]

/-- Witness for C9: updating the catalog price from 10 to 99 leaves the
line item frozen at 10 and changes the product row. -/
theorem price_at_order_immutable_witness :
    get_product_by_id dbSnapshot 5 = some ⟨5, 1, "x", 10, 4, true⟩ ∧
    (update_product_price dbSnapshot 5 99).orderItems = dbSnapshot.orderItems ∧
    get_product_by_id (update_product_price dbSnapshot 5 99) 5 =
      some ⟨5, 1, "x", 99, 4, true⟩ := by
  have h := price_at_order_immutable dbSnapshot 5 99 0 ⟨6, 1, "y", 1, 1, true⟩
  exact ⟨by decide, h.1, h.2.2.2.2 ⟨5, 1, "x", 10, 4, true⟩ (by decide)⟩

/-! ## Order Engine loop lemmas -/

theorem sumPQ_cons (sp : ItemSpec M) (l : List (ItemSpec M)) :
    sumPQ (sp :: l) = sp.price * (sp.qty : M) + sumPQ l := by
  simp [sumPQ]

theorem createLoop_eq (items : List CartItem) :
    ∀ (s : DB M) (tot : M) (specs : List (ItemSpec M)),
      createLoop s tot specs items =
        ({ s with products := stockAfter s.products items },
         tot + sumPQ (acceptedSpecs s.products items),
         specs ++ acceptedSpecs s.products items) := by
  induction items with
  | nil =>
    intro s tot specs
    simp [createLoop, stockAfter, acceptedSpecs, sumPQ]
  | cons ci rest ih =>
    intro s tot specs
    cases hfp : findProduct s.products ci.product_id with
    | none =>
      simp only [createLoop, stockAfter, acceptedSpecs, hfp]
      exact ih s tot specs
    | some p =>
      by_cases hcond : p.is_available ∧ ci.quantity ≤ p.stock_quantity
      · simp only [createLoop, stockAfter, acceptedSpecs, hfp, if_pos hcond]
        rw [ih]
        simp only [update_stock, sumPQ_cons]
        refine congrArg₂ Prod.mk rfl (congrArg₂ Prod.mk ?_ ?_)
        · ring
        · simp
      · simp only [createLoop, stockAfter, acceptedSpecs, hfp, if_neg hcond]
        exact ih s tot specs

theorem amendLoop_eq (oid : Nat) (items : List CartItem) :
    ∀ (s : DB M) (tot : M),
      (amendLoop oid s tot items).1.products = stockAfter s.products items ∧
      (amendLoop oid s tot items).1.cart = s.cart ∧
      (amendLoop oid s tot items).1.orders = s.orders ∧
      (amendLoop oid s tot items).1.nextCartId = s.nextCartId ∧
      (amendLoop oid s tot items).1.nextOrderId = s.nextOrderId ∧
      (amendLoop oid s tot items).2 = tot + sumPQ (acceptedSpecs s.products items) := by
  induction items with
  | nil =>
    intro s tot
    simp [amendLoop, stockAfter, acceptedSpecs, sumPQ]
  | cons ci rest ih =>
    intro s tot
    cases hfp : findProduct s.products ci.product_id with
    | none =>
      simp only [amendLoop, stockAfter, acceptedSpecs, hfp]
      exact ih s tot
    | some p =>
      by_cases hcond : p.is_available ∧ ci.quantity ≤ p.stock_quantity
      · by_cases hm : (s.orderItems.filter (keyP oid p.id p.price)).isEmpty = true
        · simp only [amendLoop, stockAfter, acceptedSpecs, hfp, if_pos hcond, hm, if_pos,
            update_stock]
          have := ih (update_stock
            { s with orderItems := s.orderItems ++ [⟨s.nextItemId, oid, p.id, ci.quantity, p.price⟩],
                     nextItemId := s.nextItemId + 1 } p.id (-ci.quantity))
            (tot + p.price * (ci.quantity : M))
          simp only [update_stock] at this
          refine ⟨this.1, this.2.1, this.2.2.1, this.2.2.2.1, this.2.2.2.2.1, ?_⟩
          rw [this.2.2.2.2.2, sumPQ_cons]
          ring
        · simp only [amendLoop, stockAfter, acceptedSpecs, hfp, if_pos hcond, hm, if_neg,
            Bool.false_eq_true, if_false, update_stock]
          have := ih (update_stock
            { s with orderItems := bumpFirstDropRest (keyP oid p.id p.price) ci.quantity s.orderItems }
            p.id (-ci.quantity))
            (tot + p.price * (ci.quantity : M))
          simp only [update_stock] at this
          refine ⟨this.1, this.2.1, this.2.2.1, this.2.2.2.1, this.2.2.2.2.1, ?_⟩
          rw [this.2.2.2.2.2, sumPQ_cons]
          ring
      · simp only [amendLoop, stockAfter, acceptedSpecs, hfp, if_neg hcond]
        exact ih s tot

theorem insertItems_eq (oid : Nat) (specs : List (ItemSpec M)) :
    ∀ s : DB M,
      insertItems oid s specs =
        { s with orderItems := s.orderItems ++ itemsFromSpecs s.nextItemId oid specs,
                 nextItemId := s.nextItemId + specs.length } := by
  induction specs with
  | nil => intro s; simp [insertItems, itemsFromSpecs]
  | cons sp rest ih =>
    intro s
    rw [insertItems, ih]
    simp [itemsFromSpecs]
    omega

theorem foldl_update_stock (its : List (OrderItem M)) :
    ∀ s : DB M,
      its.foldl (fun st it => update_stock st it.product_id it.quantity) s =
        { s with products := its.foldl (fun ps it => updStock ps it.product_id it.quantity) s.products } := by
  induction its with
  | nil => intro s; simp
  | cons it rest ih =>
    intro s
    rw [List.foldl_cons, List.foldl_cons, ih]
    rfl

/-! ## Claim C1: single active order -/

theorem mem_of_getLast?_eq_some {α : Type} : ∀ {l : List α} {a : α}, l.getLast? = some a → a ∈ l
  | [], a, h => by simp at h
  | [x], a, h => by
    simp only [List.getLast?_singleton, Option.some.injEq] at h
    simp [h]
  | x :: y :: xs, a, h => by
    rw [List.getLast?_cons_cons] at h
    exact List.mem_cons_of_mem x (mem_of_getLast?_eq_some h)

/-- C1.  `create_order` preserves "at most one `processing` order per
user", and a call made while the user already has a `processing` order
amends that order instead of creating a second one: the set of order rows
is unchanged except that the existing order's stored `total_price` grows
by the monetary value of the accepted cart entries, and the amended
existing order is what the call returns. -/
theorem create_order_single_processing (s : DB M) (uid : Nat) (items : List CartItem)
    (c : Option String) (dm : String) (fee : M)
    (h : processingCount s uid ≤ 1) :
    processingCount (create_order s uid items c dm fee).1 uid ≤ 1 ∧
    ∀ o0, (procOrders s uid).getLast? = some o0 →
      (create_order s uid items c dm fee).2 =
        { o0 with total_price := o0.total_price + sumPQ (acceptedSpecs s.products items) } ∧
      (create_order s uid items c dm fee).1.orders =
        s.orders.map (fun o => if o.id == o0.id then
          { o with total_price := o.total_price + sumPQ (acceptedSpecs s.products items) } else o) ∧
      (create_order s uid items c dm fee).1.orders.length = s.orders.length := by
  cases hex : (procOrders s uid).getLast? with
  | none =>
    have hnil : procOrders s uid = [] := List.getLast?_eq_none_iff.mp hex
    have hnil2 : List.filter (fun o => o.user_id == uid && o.status == "processing") s.orders = [] := hnil
    constructor
    · simp only [create_order, hex]
      simp only [createLoop_eq, insertItems_eq, clear_user_cart, processingCount, procOrders]
      rw [List.filter_append, hnil2]
      simp
    · intro o0 h0
      exact absurd h0 (by simp)
  | some ex =>
    have hr := amendLoop_eq ex.id items s 0
    have hr2 : (amendLoop ex.id s 0 items).2 = sumPQ (acceptedSpecs s.products items) := by
      rw [hr.2.2.2.2.2, zero_add]
    constructor
    · simp only [create_order, hex]
      simp only [processingCount, procOrders, clear_user_cart]
      rw [hr.2.2.1]
      rw [filter_map_length_eq _ _ (fun o => by by_cases hid : (o.id == ex.id) = true <;> simp [hid])]
      exact h
    · intro o0 h0
      have ho : o0 = ex := (Option.some.inj h0).symm
      subst ho
      refine ⟨?_, ?_, ?_⟩
      · simp only [create_order, hex]
        rw [hr2]
      · simp only [create_order, hex, clear_user_cart]
        rw [hr.2.2.1, hr2]
      · simp only [create_order, hex, clear_user_cart]
        rw [hr.2.2.1]
        simp

/-- Witness for C1 (Scenario B): user 1 has processing order 1 with
total 38 and X qty 2 in the cart; checkout amends order 1 to total 58
and creates no second order. -/
theorem create_order_single_processing_witness :
    processingCount dbAmend 1 ≤ 1 ∧
    processingCount (create_order dbAmend 1 dbAmend.cart none "pickup" 0).1 1 ≤ 1 ∧
    (create_order dbAmend 1 dbAmend.cart none "pickup" 0).2.total_price = 58 ∧
    (create_order dbAmend 1 dbAmend.cart none "pickup" 0).1.orders.length = dbAmend.orders.length := by
  have h := create_order_single_processing dbAmend 1 dbAmend.cart none "pickup" 0 (by decide)
  have h2 := h.2 ⟨1, 1, 38, "processing", "pickup", 0, none⟩ (by decide)
  refine ⟨by decide, h.1, ?_, h2.2.2⟩
  rw [h2.1]
  decide

/-! ## Claim C10: the amend path ignores the checkout arguments -/

/-- C10.  When the user already has a `processing` order, the
`contactInfo`, `deliveryMethod` and `deliveryFee` arguments of
`create_order` are ignored (any two argument triples give identical
results), the stored and returned order keep their `contact_info`,
`delivery_method`, `delivery_fee` and `status` unchanged, no delivery fee
is added to the total, only `total_price` changes on the order rows, and
the user's cart is cleared. -/
theorem create_order_amend_frame (s : DB M) (uid : Nat) (items : List CartItem)
    (c c' : Option String) (dm dm' : String) (fee fee' : M) (o0 : Order M)
    (h : (procOrders s uid).getLast? = some o0) :
    create_order s uid items c dm fee = create_order s uid items c' dm' fee' ∧
    (create_order s uid items c dm fee).2.contact_info = o0.contact_info ∧
    (create_order s uid items c dm fee).2.delivery_method = o0.delivery_method ∧
    (create_order s uid items c dm fee).2.delivery_fee = o0.delivery_fee ∧
    (create_order s uid items c dm fee).2.status = o0.status ∧
    (create_order s uid items c dm fee).2.total_price =
      o0.total_price + sumPQ (acceptedSpecs s.products items) ∧
    (create_order s uid items c dm fee).1.orders =
      s.orders.map (fun o => if o.id == o0.id then
        { o with total_price := o.total_price + sumPQ (acceptedSpecs s.products items) } else o) ∧
    (create_order s uid items c dm fee).1.cart.filter (fun r => r.user_id == uid) = [] := by
  have hr := amendLoop_eq o0.id items s 0
  have hr2 : (amendLoop o0.id s 0 items).2 = sumPQ (acceptedSpecs s.products items) := by
    rw [hr.2.2.2.2.2, zero_add]
  refine ⟨?_, ?_, ?_, ?_, ?_, ?_, ?_, ?_⟩
  · simp only [create_order, h]
  · simp only [create_order, h]
  · simp only [create_order, h]
  · simp only [create_order, h]
  · simp only [create_order, h]
  · simp only [create_order, h]
    rw [hr2]
  · simp only [create_order, h, clear_user_cart]
    rw [hr.2.2.1, hr2]
  · simp only [create_order, h, clear_user_cart]
    simp [List.filter_filter]

/-- Witness for C10: amending with contact/delivery/fee arguments leaves
the stored order's contact, method, fee and status unchanged, and gives
the same result as any other arguments. -/
theorem create_order_amend_frame_witness :
    (procOrders dbAmendFrame 1).getLast? =
      some ⟨1, 1, 38, "processing", "pickup", 0, some "tg"⟩ ∧
    create_order dbAmendFrame 1 dbAmendFrame.cart (some "other") "delivery" 5 =
      create_order dbAmendFrame 1 dbAmendFrame.cart none "pickup" 0 ∧
    (create_order dbAmendFrame 1 dbAmendFrame.cart (some "other") "delivery" 5).2.delivery_fee = 0 ∧
    (create_order dbAmendFrame 1 dbAmendFrame.cart (some "other") "delivery" 5).2.contact_info = some "tg" := by
  have h := create_order_amend_frame dbAmendFrame 1 dbAmendFrame.cart
    (some "other") none "delivery" "pickup" 5 0
    ⟨1, 1, 38, "processing", "pickup", 0, some "tg"⟩ (by decide)
  exact ⟨by decide, h.1, h.2.2.2.1, h.2.1⟩

/-! ## Stock-evolution lemmas -/

theorem findProduct_updStock_ne (ps : List (Product M)) (pid tid : Nat) (d : Int)
    (h : tid ≠ pid) :
    findProduct (updStock ps pid d) tid = findProduct ps tid := by
  rw [updStock]
  cases hf : findProduct ps pid with
  | none => rfl
  | some p =>
    simp only [setStock]
    rw [findProduct_map_preserving
      (fun r => { r with stock_quantity := max 0 (p.stock_quantity + d) }) (fun r => rfl) pid tid]
    cases hft : findProduct ps tid with
    | none => rfl
    | some q =>
      have hq : q.id = tid := by simpa [findProduct] using List.find?_some hft
      simp [hq, h]

theorem findProduct_updStock_price (ps : List (Product M)) (pid tid : Nat) (d : Int) :
    Option.map (fun p => p.price) (findProduct (updStock ps pid d) tid) =
      Option.map (fun p => p.price) (findProduct ps tid) := by
  rw [updStock]
  cases hf : findProduct ps pid with
  | none => rfl
  | some p =>
    simp only [setStock]
    rw [findProduct_map_preserving
      (fun r => { r with stock_quantity := max 0 (p.stock_quantity + d) }) (fun r => rfl) pid tid]
    cases findProduct ps tid with
    | none => rfl
    | some q =>
      by_cases hq : q.id = pid <;> simp [hq]

theorem acceptedSpecs_price (items : List CartItem) :
    ∀ (ps : List (Product M)) (sp : ItemSpec M), sp ∈ acceptedSpecs ps items →
      Option.map (fun p => p.price) (findProduct ps sp.pid) = some sp.price := by
  induction items with
  | nil => intro ps sp h; simp [acceptedSpecs] at h
  | cons ci rest ih =>
    intro ps sp hsp
    cases hf : findProduct ps ci.product_id with
    | none =>
      simp only [acceptedSpecs, hf] at hsp
      exact ih ps sp hsp
    | some p =>
      by_cases hc : p.is_available = true ∧ ci.quantity ≤ p.stock_quantity
      · simp only [acceptedSpecs, hf, if_pos hc] at hsp
        rcases List.mem_cons.mp hsp with he | ht
        · subst he
          have hid : p.id = ci.product_id := by simpa [findProduct] using List.find?_some hf
          show Option.map (fun p => p.price) (findProduct ps p.id) = some p.price
          rw [hid, hf]
          rfl
        · have := ih (updStock ps p.id (-ci.quantity)) sp ht
          rw [findProduct_updStock_price] at this
          exact this
      · simp only [acceptedSpecs, hf, if_neg hc] at hsp
        exact ih ps sp hsp

theorem acceptedSpecs_pid_mem (items : List CartItem) :
    ∀ (ps : List (Product M)) (sp : ItemSpec M), sp ∈ acceptedSpecs ps items →
      sp.pid ∈ items.map (fun ciq => ciq.product_id) := by
  induction items with
  | nil => intro ps sp h; simp [acceptedSpecs] at h
  | cons ci rest ih =>
    intro ps sp hsp
    cases hf : findProduct ps ci.product_id with
    | none =>
      simp only [acceptedSpecs, hf] at hsp
      exact List.mem_cons_of_mem _ (ih ps sp hsp)
    | some p =>
      by_cases hc : p.is_available = true ∧ ci.quantity ≤ p.stock_quantity
      · simp only [acceptedSpecs, hf, if_pos hc] at hsp
        rcases List.mem_cons.mp hsp with he | ht
        · subst he
          have hid : p.id = ci.product_id := by simpa [findProduct] using List.find?_some hf
          simp [hid]
        · exact List.mem_cons_of_mem _ (ih (updStock ps p.id (-ci.quantity)) sp ht)
      · simp only [acceptedSpecs, hf, if_neg hc] at hsp
        exact List.mem_cons_of_mem _ (ih ps sp hsp)

theorem findProduct_stockAfter_not_mem (items : List CartItem) :
    ∀ (ps : List (Product M)) (tid : Nat), tid ∉ items.map (fun ciq => ciq.product_id) →
      findProduct (stockAfter ps items) tid = findProduct ps tid := by
  induction items with
  | nil => intro ps tid _; rfl
  | cons ci rest ih =>
    intro ps tid htid
    have h1 : tid ≠ ci.product_id := by
      intro he
      exact htid (by simp [he])
    have h2 : tid ∉ rest.map (fun ciq => ciq.product_id) := by
      intro hm
      exact htid (by simp [List.mem_cons]; exact Or.inr (by simpa using hm))
    cases hf : findProduct ps ci.product_id with
    | none =>
      simp only [stockAfter, hf]
      exact ih ps tid h2
    | some p =>
      have hid : p.id = ci.product_id := by simpa [findProduct] using List.find?_some hf
      by_cases hc : p.is_available = true ∧ ci.quantity ≤ p.stock_quantity
      · simp only [stockAfter, hf, if_pos hc]
        rw [ih (updStock ps p.id (-ci.quantity)) tid h2,
          findProduct_updStock_ne ps p.id tid (-ci.quantity) (hid ▸ h1)]
      · simp only [stockAfter, hf, if_neg hc]
        exact ih ps tid h2

theorem acceptedSpecs_stock_dec (items : List CartItem) :
    ∀ ps : List (Product M), (items.map (fun ciq => ciq.product_id)).Nodup →
      ∀ sp ∈ acceptedSpecs ps items, ∀ p, findProduct ps sp.pid = some p →
        findProduct (stockAfter ps items) sp.pid =
          some { p with stock_quantity := p.stock_quantity - sp.qty } := by
  induction items with
  | nil => intro ps _ sp h; simp [acceptedSpecs] at h
  | cons ci rest ih =>
    intro ps hnd sp hsp p hfp
    have hnd2 : (rest.map (fun ciq => ciq.product_id)).Nodup := (List.nodup_cons.mp hnd).2
    have hhead : ci.product_id ∉ rest.map (fun ciq => ciq.product_id) := (List.nodup_cons.mp hnd).1
    cases hf : findProduct ps ci.product_id with
    | none =>
      simp only [acceptedSpecs, hf] at hsp
      simp only [stockAfter, hf]
      exact ih ps hnd2 sp hsp p hfp
    | some p0 =>
      have hid0 : p0.id = ci.product_id := by simpa [findProduct] using List.find?_some hf
      by_cases hc : p0.is_available = true ∧ ci.quantity ≤ p0.stock_quantity
      · simp only [acceptedSpecs, hf, if_pos hc] at hsp
        simp only [stockAfter, hf, if_pos hc]
        rcases List.mem_cons.mp hsp with he | ht
        · subst he
          have hf0 : findProduct ps p0.id = some p0 := by rw [hid0]; exact hf
          have hpp : p = p0 := by
            rw [show (⟨p0.id, ci.quantity, p0.price⟩ : ItemSpec M).pid = p0.id from rfl] at hfp
            rw [hf0] at hfp
            exact (Option.some.inj hfp).symm
          subst hpp
          show findProduct (stockAfter (updStock ps p.id (-ci.quantity)) rest) p.id =
            some { p with stock_quantity := p.stock_quantity - ci.quantity }
          rw [findProduct_stockAfter_not_mem rest _ p.id (hid0 ▸ hhead)]
          rw [updStock, hf0, findProduct_setStock ps p.id _ p hf0]
          have hmax : max 0 (p.stock_quantity + -ci.quantity) = p.stock_quantity - ci.quantity := by
            omega
          rw [hmax]
        · have hne : sp.pid ≠ p0.id := by
            intro he
            exact hhead (hid0 ▸ he ▸ acceptedSpecs_pid_mem rest (updStock ps p0.id (-ci.quantity)) sp ht)
          have hfp' : findProduct (updStock ps p0.id (-ci.quantity)) sp.pid = some p := by
            rw [findProduct_updStock_ne ps p0.id sp.pid (-ci.quantity) hne]
            exact hfp
          exact ih (updStock ps p0.id (-ci.quantity)) hnd2 sp ht p hfp'
      · simp only [acceptedSpecs, hf, if_neg hc] at hsp
        simp only [stockAfter, hf, if_neg hc]
        exact ih ps hnd2 sp hsp p hfp

/-! ## Claim C3: the create path -/

/-- C3.  On the create path (no existing `processing` order),
`create_order` builds a new `processing` order whose `total_price` is the
sum of price × quantity over the accepted cart entries plus the delivery
fee, inserts one line item per accepted entry whose `price_at_order` is
the product's current catalog price, sets the products table to the
stock-decremented table (each accepted product's stock falls by the
requested quantity when cart products are distinct), and clears the
user's cart. -/
theorem create_order_create_path (s : DB M) (uid : Nat) (items : List CartItem)
    (c : Option String) (dm : String) (fee : M)
    (h : (procOrders s uid).getLast? = none) :
    (create_order s uid items c dm fee).2.total_price =
      sumPQ (acceptedSpecs s.products items) + fee ∧
    (create_order s uid items c dm fee).2.user_id = uid ∧
    (create_order s uid items c dm fee).2.status = "processing" ∧
    (create_order s uid items c dm fee).2.delivery_method = dm ∧
    (create_order s uid items c dm fee).2.delivery_fee = fee ∧
    (create_order s uid items c dm fee).2.contact_info = c ∧
    (create_order s uid items c dm fee).1.orders =
      s.orders ++ [(create_order s uid items c dm fee).2] ∧
    (create_order s uid items c dm fee).1.orderItems =
      s.orderItems ++ itemsFromSpecs s.nextItemId (create_order s uid items c dm fee).2.id
        (acceptedSpecs s.products items) ∧
    (create_order s uid items c dm fee).1.products = stockAfter s.products items ∧
    (create_order s uid items c dm fee).1.cart.filter (fun r => r.user_id == uid) = [] ∧
    (∀ sp ∈ acceptedSpecs s.products items,
      Option.map (fun p => p.price) (findProduct s.products sp.pid) = some sp.price) ∧
    ((items.map (fun ciq => ciq.product_id)).Nodup →
      ∀ sp ∈ acceptedSpecs s.products items, ∀ p, findProduct s.products sp.pid = some p →
        findProduct (create_order s uid items c dm fee).1.products sp.pid =
          some { p with stock_quantity := p.stock_quantity - sp.qty }) := by
  have hprod : (create_order s uid items c dm fee).1.products = stockAfter s.products items := by
    simp only [create_order, h, createLoop_eq, insertItems_eq, clear_user_cart]
  refine ⟨?_, ?_, ?_, ?_, ?_, ?_, ?_, ?_, hprod, ?_, ?_, ?_⟩
  · simp only [create_order, h, createLoop_eq]
    rw [zero_add]
  · simp only [create_order, h, createLoop_eq]
  · simp only [create_order, h, createLoop_eq]
  · simp only [create_order, h, createLoop_eq]
  · simp only [create_order, h, createLoop_eq]
  · simp only [create_order, h, createLoop_eq]
  · simp only [create_order, h, createLoop_eq, insertItems_eq, clear_user_cart]
  · simp only [create_order, h, createLoop_eq, insertItems_eq, clear_user_cart]
    simp
  · simp only [create_order, h, createLoop_eq, insertItems_eq, clear_user_cart]
    simp [List.filter_filter]
  · exact fun sp hsp => acceptedSpecs_price items s.products sp hsp
  · intro hnd sp hsp p hfp
    rw [hprod]
    exact acceptedSpecs_stock_dec items s.products hnd sp hsp p hfp

/-- Witness for C3 (Scenario A): cart X (price 10, stock 5) qty 3 and
Y (price 8) qty 1 with pickup fee 0 gives total 38 and stock(X) = 2. -/
theorem create_order_create_path_witness :
    (procOrders dbScenarioA 1).getLast? = none ∧
    (create_order dbScenarioA 1 dbScenarioA.cart none "pickup" 0).2.total_price = 38 ∧
    Option.map (fun p => p.stock_quantity)
      (findProduct (create_order dbScenarioA 1 dbScenarioA.cart none "pickup" 0).1.products 1) =
      some 2 ∧
    (create_order dbScenarioA 1 dbScenarioA.cart none "pickup" 0).1.cart.filter
      (fun r => r.user_id == 1) = [] := by
  have h := create_order_create_path dbScenarioA 1 dbScenarioA.cart none "pickup" 0 (by decide)
  refine ⟨by decide, ?_, ?_, h.2.2.2.2.2.2.2.2.2.1⟩
  · rw [h.1]
    decide
  · rw [h.2.2.2.2.2.2.2.2.1]
    decide

/-! ## Claim C5: silent skip of unavailable / under-stocked entries -/

/-- C5.  A cart entry whose product is missing, unavailable, or has
stock below the requested quantity is silently skipped by
`create_order` on both paths: no line item is recorded for it, its
product's stock is untouched, it contributes nothing to the total, and
the whole call gives exactly the result of the call on the remaining
entries (no error is raised; every operation is a total function). -/
theorem create_order_skips_bad_entries (s : DB M) (oid : Nat) (tot : M)
    (specs : List (ItemSpec M)) (ciq : CartItem) (rest : List CartItem)
    (uid : Nat) (c : Option String) (dm : String) (fee : M)
    (h : ∀ p, findProduct s.products ciq.product_id = some p →
      ¬(p.is_available = true ∧ ciq.quantity ≤ p.stock_quantity)) :
    amendLoop oid s tot (ciq :: rest) = amendLoop oid s tot rest ∧
    createLoop s tot specs (ciq :: rest) = createLoop s tot specs rest ∧
    acceptedSpecs s.products (ciq :: rest) = acceptedSpecs s.products rest ∧
    stockAfter s.products (ciq :: rest) = stockAfter s.products rest ∧
    create_order s uid (ciq :: rest) c dm fee = create_order s uid rest c dm fee := by
  have hA : ∀ (oid' : Nat) (tot' : M),
      amendLoop oid' s tot' (ciq :: rest) = amendLoop oid' s tot' rest := by
    intro oid' tot'
    cases hf : findProduct s.products ciq.product_id with
    | none => simp only [amendLoop, hf]
    | some p => simp only [amendLoop, hf, if_neg (h p hf)]
  have hC : ∀ (tot' : M) (specs' : List (ItemSpec M)),
      createLoop s tot' specs' (ciq :: rest) = createLoop s tot' specs' rest := by
    intro tot' specs'
    cases hf : findProduct s.products ciq.product_id with
    | none => simp only [createLoop, hf]
    | some p => simp only [createLoop, hf, if_neg (h p hf)]
  have hS : acceptedSpecs s.products (ciq :: rest) = acceptedSpecs s.products rest := by
    cases hf : findProduct s.products ciq.product_id with
    | none => simp only [acceptedSpecs, hf]
    | some p => simp only [acceptedSpecs, hf, if_neg (h p hf)]
  have hT : stockAfter s.products (ciq :: rest) = stockAfter s.products rest := by
    cases hf : findProduct s.products ciq.product_id with
    | none => simp only [stockAfter, hf]
    | some p => simp only [stockAfter, hf, if_neg (h p hf)]
  refine ⟨hA oid tot, hC tot specs, hS, hT, ?_⟩
  cases hex : (procOrders s uid).getLast? with
  | none =>
    simp only [create_order, hex]
    rw [hC 0 []]
  | some ex =>
    simp only [create_order, hex]
    rw [hA ex.id 0]

/-- Witness for C5 (Scenario E): product Z (id 3) has stock 0, so its
cart entry is skipped and checkout equals checkout without it. -/
theorem create_order_skips_bad_entries_witness :
    (∀ p : Product Int, findProduct dbZeroStock.products
        (⟨2, 1, 3, 1⟩ : CartItem).product_id = some p →
      ¬(p.is_available = true ∧ (⟨2, 1, 3, 1⟩ : CartItem).quantity ≤ p.stock_quantity)) ∧
    create_order dbZeroStock 1 [⟨2, 1, 3, 1⟩, ⟨1, 1, 1, 3⟩] none "pickup" 0 =
      create_order dbZeroStock 1 [⟨1, 1, 1, 3⟩] none "pickup" 0 ∧
    (create_order dbZeroStock 1 [⟨2, 1, 3, 1⟩, ⟨1, 1, 1, 3⟩] none "pickup" 0).2.total_price = 30 := by
  have hz : findProduct dbZeroStock.products 3 = some ⟨3, 1, "z", 9, 0, true⟩ := by decide
  have hp : ∀ p : Product Int, findProduct dbZeroStock.products
      (⟨2, 1, 3, 1⟩ : CartItem).product_id = some p →
      ¬(p.is_available = true ∧ (⟨2, 1, 3, 1⟩ : CartItem).quantity ≤ p.stock_quantity) := by
    intro p hfp
    have heq2 : (⟨3, 1, "z", 9, 0, true⟩ : Product Int) = p := Option.some.inj (hz.symm.trans hfp)
    subst heq2
    decide
  have h := create_order_skips_bad_entries dbZeroStock 1 0 []
    (⟨2, 1, 3, 1⟩ : CartItem) [⟨1, 1, 1, 3⟩] 1 none "pickup" 0 hp
  exact ⟨hp, h.2.2.2.2, by rw [h.2.2.2.2]; decide⟩

/-! ## Claim C4: order deletion restores stock -/

theorem foldl_updStock_not_mem (its : List (OrderItem M)) :
    ∀ (ps : List (Product M)) (tid : Nat), tid ∉ its.map (fun it => it.product_id) →
      findProduct (its.foldl (fun acc it => updStock acc it.product_id it.quantity) ps) tid =
        findProduct ps tid := by
  induction its with
  | nil => intro ps tid _; rfl
  | cons jt rest ih =>
    intro ps tid htid
    have h1 : tid ≠ jt.product_id := by
      intro he
      exact htid (by simp [he])
    have h2 : tid ∉ rest.map (fun it => it.product_id) := by
      intro hm
      exact htid (by simp [List.mem_cons]; exact Or.inr (by simpa using hm))
    rw [List.foldl_cons, ih (updStock ps jt.product_id jt.quantity) tid h2,
      findProduct_updStock_ne ps jt.product_id tid jt.quantity h1]

theorem foldl_updStock_restores (its : List (OrderItem M)) :
    ∀ ps : List (Product M), (its.map (fun it => it.product_id)).Nodup →
      ∀ it ∈ its, ∀ p, findProduct ps it.product_id = some p →
        0 ≤ p.stock_quantity → 0 ≤ it.quantity →
        findProduct (its.foldl (fun acc i => updStock acc i.product_id i.quantity) ps)
            it.product_id =
          some { p with stock_quantity := p.stock_quantity + it.quantity } := by
  induction its with
  | nil => intro ps _ it h; simp at h
  | cons jt rest ih =>
    intro ps hnd it hit p hfp hps hq
    have hnd2 : (rest.map (fun i => i.product_id)).Nodup := (List.nodup_cons.mp hnd).2
    have hhead : jt.product_id ∉ rest.map (fun i => i.product_id) := (List.nodup_cons.mp hnd).1
    rw [List.foldl_cons]
    rcases List.mem_cons.mp hit with he | ht
    · subst he
      rw [foldl_updStock_not_mem rest (updStock ps it.product_id it.quantity) it.product_id hhead]
      rw [updStock, hfp, findProduct_setStock ps it.product_id _ p hfp]
      have hmax : max 0 (p.stock_quantity + it.quantity) = p.stock_quantity + it.quantity := by
        omega
      rw [hmax]
    · have hne : it.product_id ≠ jt.product_id := by
        intro he
        exact hhead (he ▸ (List.mem_map.mpr ⟨it, ht, rfl⟩))
      have hfp' : findProduct (updStock ps jt.product_id jt.quantity) it.product_id = some p := by
        rw [findProduct_updStock_ne ps jt.product_id it.product_id jt.quantity hne]
        exact hfp
      exact ih (updStock ps jt.product_id jt.quantity) hnd2 it ht p hfp' hps hq

/-- C4.  `delete_order(orderId)` returns whether the order existed.  If
it does not, the state is unchanged and `false` is returned.  If it
does, `true` is returned, the order row and all its line items are
deleted, the cart is untouched, and the products table is the result of
adding each line item's quantity back to its product's stock (for
distinct products with non-negative stock and quantities, each product's
stock rises by exactly its line item's quantity). -/
theorem delete_order_spec (s : DB M) (oid : Nat) :
    (s.orders.find? (fun o => o.id == oid) = none → delete_order s oid = (s, false)) ∧
    ∀ o, s.orders.find? (fun o => o.id == oid) = some o →
      (delete_order s oid).2 = true ∧
      (delete_order s oid).1.orders = s.orders.filter (fun x => !(x.id == oid)) ∧
      (delete_order s oid).1.orderItems =
        s.orderItems.filter (fun it => !(it.order_id == oid)) ∧
      (delete_order s oid).1.cart = s.cart ∧
      (delete_order s oid).1.products =
        (s.orderItems.filter (fun it => it.order_id == oid)).foldl
          (fun ps it => updStock ps it.product_id it.quantity) s.products ∧
      (((s.orderItems.filter (fun it => it.order_id == oid)).map
          (fun it => it.product_id)).Nodup →
        ∀ it ∈ s.orderItems.filter (fun it => it.order_id == oid), ∀ p,
          findProduct s.products it.product_id = some p →
          0 ≤ p.stock_quantity → 0 ≤ it.quantity →
          findProduct (delete_order s oid).1.products it.product_id =
            some { p with stock_quantity := p.stock_quantity + it.quantity }) := by
  constructor
  · intro hnone
    simp only [delete_order, hnone]
  · intro o hsome
    have hfold := foldl_update_stock (s.orderItems.filter (fun it => it.order_id == oid)) s
    have hprod : (delete_order s oid).1.products =
        (s.orderItems.filter (fun it => it.order_id == oid)).foldl
          (fun ps it => updStock ps it.product_id it.quantity) s.products := by
      simp only [delete_order, hsome, hfold]
    refine ⟨?_, ?_, ?_, ?_, hprod, ?_⟩
    · simp only [delete_order, hsome]
    · simp only [delete_order, hsome, hfold]
    · simp only [delete_order, hsome, hfold]
    · simp only [delete_order, hsome, hfold]
    · intro hnd it hit p hfp hps hq
      rw [hprod]
      exact foldl_updStock_restores _ s.products hnd it hit p hfp hps hq

/-- Witness for C4 (Scenario D): deleting order 7 (line items X qty 5,
Y qty 1) restores stock(X) 0 → 5 and stock(Y) 3 → 4, removes the order
and its items, and returns `true`; deleting a missing order returns
`false` and changes nothing. -/
theorem delete_order_spec_witness :
    dbDeleteOrd.orders.find? (fun o => o.id == 7) =
      some ⟨7, 1, 58, "processing", "pickup", 0, none⟩ ∧
    (delete_order dbDeleteOrd 7).2 = true ∧
    (delete_order dbDeleteOrd 7).1.orders = [] ∧
    (delete_order dbDeleteOrd 7).1.orderItems = [] ∧
    findProduct (delete_order dbDeleteOrd 7).1.products 1 = some ⟨1, 1, "x", 10, 5, true⟩ ∧
    findProduct (delete_order dbDeleteOrd 7).1.products 2 = some ⟨2, 1, "y", 8, 4, true⟩ ∧
    delete_order dbDeleteOrd 99 = (dbDeleteOrd, false) := by
  have h2 := (delete_order_spec dbDeleteOrd 7).2
    ⟨7, 1, 58, "processing", "pickup", 0, none⟩ (by decide)
  have hrx := h2.2.2.2.2.2 (by decide) ⟨1, 7, 1, 5, 10⟩ (by decide)
    ⟨1, 1, "x", 10, 0, true⟩ (by decide) (by decide) (by decide)
  have hry := h2.2.2.2.2.2 (by decide) ⟨2, 7, 2, 1, 8⟩ (by decide)
    ⟨2, 1, "y", 8, 3, true⟩ (by decide) (by decide) (by decide)
  refine ⟨by decide, h2.1, ?_, ?_, ?_, ?_, (delete_order_spec dbDeleteOrd 99).1 (by decide)⟩
  · rw [h2.2.1]
    decide
  · rw [h2.2.2.1]
    decide
  · rw [hrx]
    decide
  · rw [hry]
    decide

/-! ## Claim C7: merging duplicate line items -/

theorem keyP_true_iff (oid pid : Nat) (pr : M) (it : OrderItem M) :
    keyP oid pid pr it = true ↔
      it.order_id = oid ∧ it.product_id = pid ∧ it.price_at_order = pr := by
  simp [keyP]
  tauto

theorem coalesceOrd_filter_seen (oid pid : Nat) (pr : M) (l : List (OrderItem M)) :
    ∀ seen : List (Nat × M), (pid, pr) ∈ seen →
      (coalesceOrd oid seen l).filter (keyP oid pid pr) = [] := by
  induction l with
  | nil => intro seen _; rfl
  | cons it rest ih =>
    intro seen hmem
    rw [coalesceOrd]
    by_cases ho : it.order_id = oid
    · rw [if_pos (by simp [ho])]
      by_cases hk : (it.product_id, it.price_at_order) ∈ seen
      · rw [if_pos hk]
        exact ih seen hmem
      · rw [if_neg hk]
        have hkey : keyP oid pid pr
            { it with quantity := it.quantity + ordQty oid it.product_id it.price_at_order rest } = false := by
          rw [show (keyP oid pid pr
            { it with quantity := it.quantity + ordQty oid it.product_id it.price_at_order rest }) =
              keyP oid pid pr it from rfl]
          by_cases hkk : keyP oid pid pr it = true
          · obtain ⟨h1, h2, h3⟩ := (keyP_true_iff oid pid pr it).mp hkk
            exact absurd (by rw [h2, h3]; exact hmem) hk
          · simpa using hkk
        rw [List.filter_cons_of_neg (by simp [hkey])]
        exact ih ((it.product_id, it.price_at_order) :: seen) (List.mem_cons_of_mem _ hmem)
    · rw [if_neg (by simp [ho])]
      have hkey : keyP oid pid pr it = false := by
        simp [keyP, ho]
      rw [List.filter_cons_of_neg (by simp [hkey])]
      exact ih seen hmem

theorem coalesceOrd_filter_nil (oid pid : Nat) (pr : M) (l : List (OrderItem M)) :
    ∀ seen : List (Nat × M), l.filter (keyP oid pid pr) = [] →
      (coalesceOrd oid seen l).filter (keyP oid pid pr) = [] := by
  induction l with
  | nil => intro seen _; rfl
  | cons it rest ih =>
    intro seen hfil
    have hk : keyP oid pid pr it = false := by
      by_cases hkk : keyP oid pid pr it = true
      · rw [List.filter_cons_of_pos hkk] at hfil
        exact absurd hfil (by simp)
      · simpa using hkk
    have hrest : rest.filter (keyP oid pid pr) = [] := by
      rwa [List.filter_cons_of_neg (by simp [hk])] at hfil
    rw [coalesceOrd]
    by_cases ho : it.order_id = oid
    · rw [if_pos (by simp [ho])]
      by_cases hmem : (it.product_id, it.price_at_order) ∈ seen
      · rw [if_pos hmem]
        exact ih seen hrest
      · rw [if_neg hmem]
        have hproj : keyP oid pid pr
            { it with quantity := it.quantity + ordQty oid it.product_id it.price_at_order rest } =
              keyP oid pid pr it := rfl
        rw [List.filter_cons_of_neg (by simp [hproj, hk])]
        exact ih ((it.product_id, it.price_at_order) :: seen) hrest
    · rw [if_neg (by simp [ho]), List.filter_cons_of_neg (by simp [hk])]
      exact ih seen hrest

theorem coalesceOrd_filter_cons (oid pid : Nat) (pr : M) (l : List (OrderItem M)) :
    ∀ (seen : List (Nat × M)) (x : OrderItem M) (xs : List (OrderItem M)),
      (pid, pr) ∉ seen → l.filter (keyP oid pid pr) = x :: xs →
      (coalesceOrd oid seen l).filter (keyP oid pid pr) =
        [{ x with quantity := x.quantity + ((xs.map (fun it => it.quantity)).sum) }] := by
  induction l with
  | nil => intro seen x xs _ h; exact absurd h (by simp)
  | cons it rest ih =>
    intro seen x xs hseen hfil
    rw [coalesceOrd]
    by_cases hk : keyP oid pid pr it = true
    · obtain ⟨h1, h2, h3⟩ := (keyP_true_iff oid pid pr it).mp hk
      rw [List.filter_cons_of_pos hk] at hfil
      have hx : it = x := (List.cons.injEq _ _ _ _ ▸ hfil).1
      have hxs : rest.filter (keyP oid pid pr) = xs := (List.cons.injEq _ _ _ _ ▸ hfil).2
      rw [if_pos (by simp [h1])]
      rw [if_neg (show (it.product_id, it.price_at_order) ∉ seen from by rw [h2, h3]; exact hseen)]
      have hkey : keyP oid pid pr
          { it with quantity := it.quantity + ordQty oid it.product_id it.price_at_order rest } = true := by
        rw [show (keyP oid pid pr
          { it with quantity := it.quantity + ordQty oid it.product_id it.price_at_order rest }) =
            keyP oid pid pr it from rfl]
        exact hk
      rw [List.filter_cons_of_pos hkey]
      rw [coalesceOrd_filter_seen oid pid pr rest ((it.product_id, it.price_at_order) :: seen)
        (by rw [h2, h3]; exact List.mem_cons_self _ _)]
      rw [show ordQty oid it.product_id it.price_at_order rest =
        ((rest.filter (keyP oid pid pr)).map (fun i => i.quantity)).sum from by rw [h2, h3]; rfl]
      rw [hxs, hx]
    · have hkf : keyP oid pid pr it = false := by simpa using hk
      rw [List.filter_cons_of_neg (by simp [hkf])] at hfil
      by_cases ho : it.order_id = oid
      · rw [if_pos (by simp [ho])]
        by_cases hmem : (it.product_id, it.price_at_order) ∈ seen
        · rw [if_pos hmem]
          exact ih seen x xs hseen hfil
        · rw [if_neg hmem]
          have hproj : keyP oid pid pr
              { it with quantity := it.quantity + ordQty oid it.product_id it.price_at_order rest } =
                keyP oid pid pr it := rfl
          rw [List.filter_cons_of_neg (by simp [hproj, hkf])]
          have hseen2 : (pid, pr) ∉ (it.product_id, it.price_at_order) :: seen := by
            intro hmm
            rcases List.mem_cons.mp hmm with he | hin
            · apply hk
              rw [keyP_true_iff]
              have h2 : pid = it.product_id := congrArg Prod.fst he
              have h3 : pr = it.price_at_order := congrArg Prod.snd he
              exact ⟨ho, h2.symm, h3.symm⟩
            · exact hseen hin
          exact ih ((it.product_id, it.price_at_order) :: seen) x xs hseen2 hfil
      · rw [if_neg (by simp [ho]), List.filter_cons_of_neg (by simp [hkf])]
        exact ih seen x xs hseen hfil

theorem coalesceOrd_idem (oid : Nat) (l : List (OrderItem M)) :
    ∀ seen : List (Nat × M),
      coalesceOrd oid seen (coalesceOrd oid seen l) = coalesceOrd oid seen l := by
  induction l with
  | nil => intro seen; rfl
  | cons it rest ih =>
    intro seen
    by_cases ho : it.order_id = oid
    · by_cases hmem : (it.product_id, it.price_at_order) ∈ seen
      · rw [coalesceOrd, if_pos (by simp [ho]), if_pos hmem]
        exact ih seen
      · rw [coalesceOrd, if_pos (by simp [ho]), if_neg hmem]
        have h0 : ordQty oid it.product_id it.price_at_order
            (coalesceOrd oid ((it.product_id, it.price_at_order) :: seen) rest) = 0 := by
          rw [ordQty, coalesceOrd_filter_seen oid it.product_id it.price_at_order rest
            ((it.product_id, it.price_at_order) :: seen) (List.mem_cons_self _ _)]
          rfl
        rw [coalesceOrd, if_pos (by simp [ho]), if_neg (by simpa using hmem)]
        rw [show ordQty oid
            ({ it with quantity := it.quantity + ordQty oid it.product_id it.price_at_order rest } :
              OrderItem M).product_id
            ({ it with quantity := it.quantity + ordQty oid it.product_id it.price_at_order rest } :
              OrderItem M).price_at_order
            (coalesceOrd oid ((it.product_id, it.price_at_order) :: seen) rest) =
          ordQty oid it.product_id it.price_at_order
            (coalesceOrd oid ((it.product_id, it.price_at_order) :: seen) rest) from rfl]
        rw [h0, add_zero]
        rw [show (({ it with quantity := it.quantity + ordQty oid it.product_id it.price_at_order rest } :
            OrderItem M).product_id,
            ({ it with quantity := it.quantity + ordQty oid it.product_id it.price_at_order rest } :
              OrderItem M).price_at_order) = (it.product_id, it.price_at_order) from rfl]
        rw [ih ((it.product_id, it.price_at_order) :: seen)]
    · rw [coalesceOrd, if_neg (by simp [ho]), coalesceOrd, if_neg (by simp [ho]), ih seen]

/-- C7.  `mergeDuplicateLineItems(orderId)` groups the order's line items
by (product, price_at_order); for each key it keeps exactly one item
(none when there was none, otherwise the first — oldest / lowest-id when
items are id-sorted — item of the group, carrying the group's total
quantity), so after it runs no two line items of the order share
(product, price_at_order), the total quantity per key is preserved, and
running it again changes nothing. -/
theorem merge_duplicate_order_items_spec (s : DB M) (oid pid : Nat) (pr : M) :
    ((merge_duplicate_order_items s oid).orderItems.filter (keyP oid pid pr)).length ≤ 1 ∧
    (((merge_duplicate_order_items s oid).orderItems.filter (keyP oid pid pr)).map
        (fun it => it.quantity)).sum =
      ((s.orderItems.filter (keyP oid pid pr)).map (fun it => it.quantity)).sum ∧
    merge_duplicate_order_items (merge_duplicate_order_items s oid) oid =
      merge_duplicate_order_items s oid ∧
    ∀ x xs, s.orderItems.filter (keyP oid pid pr) = x :: xs →
      (merge_duplicate_order_items s oid).orderItems.filter (keyP oid pid pr) =
        [{ x with quantity := x.quantity + ((xs.map (fun it => it.quantity)).sum) }] ∧
      (s.orderItems.Pairwise (fun a b => a.id ≤ b.id) → ∀ y ∈ x :: xs, x.id ≤ y.id) := by
  have hchar : ∀ x xs, s.orderItems.filter (keyP oid pid pr) = x :: xs →
      (merge_duplicate_order_items s oid).orderItems.filter (keyP oid pid pr) =
        [{ x with quantity := x.quantity + ((xs.map (fun it => it.quantity)).sum) }] := by
    intro x xs hfil
    simp only [merge_duplicate_order_items]
    exact coalesceOrd_filter_cons oid pid pr s.orderItems [] x xs (by simp) hfil
  refine ⟨?_, ?_, ?_, ?_⟩
  · cases hfil : s.orderItems.filter (keyP oid pid pr) with
    | nil =>
      simp only [merge_duplicate_order_items]
      rw [coalesceOrd_filter_nil oid pid pr s.orderItems [] hfil]
      simp
    | cons x xs =>
      rw [hchar x xs hfil]
      simp
  · cases hfil : s.orderItems.filter (keyP oid pid pr) with
    | nil =>
      simp only [merge_duplicate_order_items]
      rw [coalesceOrd_filter_nil oid pid pr s.orderItems [] hfil]
    | cons x xs =>
      rw [hchar x xs hfil]
      simp
  · simp only [merge_duplicate_order_items]
    rw [coalesceOrd_idem oid s.orderItems []]
  · intro x xs hfil
    refine ⟨hchar x xs hfil, ?_⟩
    intro hps y hy
    have hpfil : (s.orderItems.filter (keyP oid pid pr)).Pairwise (fun a b => a.id ≤ b.id) :=
      List.Pairwise.sublist (List.filter_sublist s.orderItems) hps
    rw [hfil] at hpfil
    rcases List.mem_cons.mp hy with he | ht
    · subst he
      exact le_refl _
    · exact (List.pairwise_cons.mp hpfil).1 y ht

/-- Witness for C7: order 9 holds items (product 5, price 10) qty 2 and
qty 3 plus a (product 5, price 12) item; merging collapses the price-10
group into the oldest item with qty 5, preserves totals, and is
idempotent. -/
theorem merge_duplicate_order_items_spec_witness :
    dbDupItems.orderItems.filter (keyP 9 5 (10 : Int)) =
      [⟨1, 9, 5, 2, 10⟩, ⟨2, 9, 5, 3, 10⟩] ∧
    (merge_duplicate_order_items dbDupItems 9).orderItems.filter (keyP 9 5 (10 : Int)) =
      [⟨1, 9, 5, 5, 10⟩] ∧
    merge_duplicate_order_items (merge_duplicate_order_items dbDupItems 9) 9 =
      merge_duplicate_order_items dbDupItems 9 ∧
    dbDupItems.orderItems.Pairwise (fun a b => a.id ≤ b.id) ∧
    ∀ y ∈ [(⟨1, 9, 5, 2, 10⟩ : OrderItem Int), ⟨2, 9, 5, 3, 10⟩],
      (⟨1, 9, 5, 2, 10⟩ : OrderItem Int).id ≤ y.id := by
  have h := merge_duplicate_order_items_spec dbDupItems 9 5 (10 : Int)
  have h4 := h.2.2.2 ⟨1, 9, 5, 2, 10⟩ [⟨2, 9, 5, 3, 10⟩] (by decide)
  refine ⟨by decide, ?_, h.2.2.1, by decide, h4.2 (by decide)⟩
  rw [h4.1]
  decide
